import Mathlib

/-!
# sfall — `FalloutEngine/EngineUtils.h`

A shallow embedding of the engine utility layer of sfall.  The only function
whose body lives in the header is the inline pool release `sf_rect_free`; it
is embedded statement by statement over an explicit host-memory state.  The
remaining wrappers are only declared in the header, so their behaviour is
modelled from the specification and marked as such.
-/

namespace fo

/-! ## Host memory model for the rectangle pool -/

/-- A host address.  Address `0` is the null pointer. -/
abbrev Ptr := Nat

/-- The C++ `nullptr`. -/
def null : Ptr := 0

/-- Modelled from the spec: the node type `fo::RectList` is declared in a header
that is not part of the sources at hand.  The spec describes it as a
dirty-rectangle record of a singly linked free list, so a node carries a
rectangle payload (kept abstract as `α`) and the link `nextRect`, which is the
one field `sf_rect_free` writes. -/
structure RectList (α : Type) where
  /-- The rectangle data stored in the node. -/
  rect : α
  /-- Link to the next node of the free list (`null` ends the list). -/
  nextRect : Ptr

/-- The part of the host process state that `sf_rect_free` can observe:
the global `fo::var::rectList` (head of the free list) and the memory holding
the `RectList` nodes, indexed by address. -/
structure Host (α : Type) where
  /-- The global `fo::var::rectList`. -/
  rectList : Ptr
  /-- Node memory: the record stored at each address. -/
  mem : Ptr → RectList α

/-- The store `p->nextRect = v`. -/
def setNextRect {α : Type} (mem : Ptr → RectList α) (p v : Ptr) : Ptr → RectList α :=
  Function.update mem p ⟨(mem p).rect, v⟩

/-- Embedding of

```
__forceinline void sf_rect_free(fo::RectList* rect) {
    fo::RectList* front = fo::var::rectList;
    fo::var::rectList = rect;
    rect->nextRect = front;
}
```

The store through `rect` has no defined behaviour for a null pointer, which
is reported as `none`; otherwise the three statements run in order. -/
def sf_rect_free {α : Type} (s : Host α) (rect : Ptr) : Option (Host α) :=
  if rect = null then none
  else
    let front := s.rectList
    let s1 : Host α := ⟨rect, s.mem⟩
    some ⟨s1.rectList, setNextRect s1.mem rect front⟩

/-- Modelled from the spec: allocation from the pool belongs to the host engine
and is not part of the sources at hand.  The pool is "a singly linked list of
reusable records", so allocation is the pop matching the push of the release:
the head node is handed out and the head moves on to that node's `nextRect`;
an empty pool (null head) has no node to hand out. -/
def rect_malloc {α : Type} (s : Host α) : Option (Ptr × Host α) :=
  if s.rectList = null then none
  else some (s.rectList, ⟨(s.mem s.rectList).nextRect, s.mem⟩)

/-- List segment: following `nextRect` links from `p` visits exactly the nodes
`L`, in order and all of them non-null, and then arrives at `q`. -/
def IsSeg {α : Type} (mem : Ptr → RectList α) : Ptr → List Ptr → Ptr → Prop
  | p, [], q => p = q
  | p, x :: xs, q => p ≠ null ∧ p = x ∧ IsSeg mem (mem x).nextRect xs q

/-- A segment over concrete memory can be checked by walking it. -/
instance IsSeg.decide {α : Type} (mem : Ptr → RectList α) :
    (p : Ptr) → (L : List Ptr) → (q : Ptr) → Decidable (IsSeg mem p L q)
  | p, [], q => inferInstanceAs (Decidable (p = q))
  | _, x :: xs, q =>
    @instDecidableAnd _ _ _ (@instDecidableAnd _ _ _ (IsSeg.decide mem (mem x).nextRect xs q))

/-- The free list of `s` is null-terminated with node sequence `L`: starting
at the head `fo::var::rectList` the links run through `L` and end in null. -/
def IsFreeList {α : Type} (s : Host α) (L : List Ptr) : Prop :=
  IsSeg s.mem s.rectList L null

/-- A free list over concrete memory can be checked by walking it. -/
instance IsFreeList.decide {α : Type} (s : Host α) (L : List Ptr) : Decidable (IsFreeList s L) :=
  IsSeg.decide s.mem s.rectList L null

/-- Well-formed free list: some finite node sequence without repetition
(acyclic) leads from the head to null (null-terminated). -/
def WellFormed {α : Type} (s : Host α) : Prop :=
  ∃ L, IsFreeList s L ∧ L.Nodup

/-- The node `q` is reachable from `p` by following one or more `nextRect`
links through non-null nodes. -/
def Reaches {α : Type} (mem : Ptr → RectList α) (p q : Ptr) : Prop :=
  ∃ C, C ≠ [] ∧ IsSeg mem p C q

/-- A three-node example pool: head `1`, links `1 → 2 → 3 → null`, and a
further node `7` that is not in the pool. -/
def examplePool : Host Nat :=
  ⟨1, fun p =>
    if p = 1 then ⟨10, 2⟩ else if p = 2 then ⟨20, 3⟩ else if p = 3 then ⟨30, 0⟩
    else if p = 7 then ⟨70, 5⟩ else ⟨0, 0⟩⟩

/-! ## Wrappers that are only declared in the header

The bodies of the following functions are not in the header; each is modelled
from the specification and from the comment that accompanies its declaration. -/

/-- Modelled from the spec: a record of a string table, pairing a message
identifier with its text.  The struct `MessageNode` is not declared in the
sources at hand. -/
structure MessageNode where
  /-- The message identifier. -/
  number : Int
  /-- The message text. -/
  message : String

/-- Modelled from the spec: the string table `MessageList`, "an in-memory table
mapping small integer message identifiers to localized strings".  The struct is
not declared in the sources at hand. -/
structure MessageList where
  /-- The records of the table. -/
  nodes : List MessageNode

/-- Modelled from the spec: the host's table lookup by message identifier,
which "either succeeds with a borrowed string or fails".  The host routine is
not part of the sources at hand. -/
def message_search (nodes : List MessageNode) (messageId : Int) : Option MessageNode :=
  match nodes with
  | [] => none
  | n :: rest => if n.number = messageId then some n else message_search rest messageId

/-- Modelled from the spec: the body of `MessageSearch` is not in the header.
Nullable variant of the message lookup: "returns the string, or no value, if
not found"; the header says it "returns nullptr when no message is found". -/
def MessageSearch (fileAddr : MessageList) (messageId : Int) : Option String :=
  match message_search fileAddr.nodes messageId with
  | some n => some n.message
  | none => none

/-- Modelled from the spec: the body of `GetMessageStr` is not in the header.
Guaranteed-string variant of the message lookup: "returns the message string,
or a fixed literal placeholder if not found"; the header names the placeholder:
"returns message string from given file or "Error" when not found". -/
def GetMessageStr (fileAddr : MessageList) (messageId : Int) : String :=
  match message_search fileAddr.nodes messageId with
  | some n => n.message
  | none => "Error"

/-- Modelled from the spec: a template record, "keyed by a numeric identifier
(PID), describing a class of object".  The struct `Proto` is not declared in
the sources at hand; what it describes is kept abstract as `β`. -/
structure Proto (β : Type) where
  /-- The identifier field. -/
  pid : Int
  /-- The description of the object class. -/
  body : β

/-- Modelled from the spec: the body of `GetProto` is not in the header.
Template lookup by identifier over the templates loaded by the host data set:
"returns a pointer to the template, or no value if the id is invalid/unloaded".
A returned record stands for the non-null pointer to it, `none` for `nullptr`. -/
def GetProto {β : Type} (loaded : List (Proto β)) (pid : Int) : Option (Proto β) :=
  match loaded with
  | [] => none
  | p :: rest => if p.pid = pid then some p else GetProto rest pid

/-- Modelled from the spec: the host copy loop behind `skill_get_tags` and
`skill_set_tags`, not part of the sources at hand.  It copies the first `n`
entries of `src` to `dst` and reports the entry indices it touched, in order.
Memory is indexed by entry offset from the start of the array. -/
def copyTags (src dst : Nat → Int) : Nat → (Nat → Int) × List Nat
  | 0 => (dst, [])
  | n + 1 =>
    let r := copyTags src dst n
    (Function.update r.1 n (src n), r.2 ++ [n])

/-- Modelled from the spec: the wrappers clamp "the requested count to the valid
skill-count range" `0 .. tagCount`; the valid skill-tag count is a constant of
the host that is not in the sources at hand and is taken as a parameter. -/
def clampTagCount (tagCount : Nat) (num : Int) : Nat :=
  if num > (tagCount : Int) then tagCount else num.toNat

/-- Modelled from the spec: the body of `SkillGetTags` is not in the header
("wrapper for skill_get_tags with bounds checking").  The count is clamped and
then that many entries are copied from the host's tag array `tag_skill` into
the caller's buffer `result`.  Returns the buffer and the indices touched. -/
def SkillGetTags (tagCount : Nat) (tag_skill result : Nat → Int) (num : Int) :
    (Nat → Int) × List Nat :=
  copyTags tag_skill result (clampTagCount tagCount num)

/-- Modelled from the spec: the body of `SkillSetTags` is not in the header
("wrapper for skill_set_tags with bounds checking").  The count is clamped and
then that many entries are copied from the caller's buffer `tags` into host
memory at the tag array `tag_skill`; offsets from `tagCount` on are host memory
past the array.  Returns the host memory and the indices touched. -/
def SkillSetTags (tagCount : Nat) (tag_skill tags : Nat → Int) (num : Int) :
    (Nat → Int) × List Nat :=
  copyTags tags tag_skill (clampTagCount tagCount num)

/-- Modelled from the spec: the fields of a live game object that the item-slot
lookup and the tile-radius query depend on.  The struct `GameObject` is not
declared in the sources at hand.  An object "lacks inventory" when `inventory`
is `none`; otherwise each slot of the slot enum `σ` holds an item handle or is
empty. -/
structure GameObject (σ : Type) where
  /-- The handle of the object. -/
  id : Ptr
  /-- The tile the object occupies. -/
  tile : Int
  /-- The elevation the object is on. -/
  elevation : Int
  /-- The object type, matched against the type filter. -/
  type : Int
  /-- The inventory slots, when the object has inventory capability. -/
  inventory : Option (σ → Option Ptr)

/-- Modelled from the spec: the body of `GetItemPtrSlot` is not in the header.
Item-slot lookup: "returns the item pointer occupying that inventory slot, or
no value if the slot is empty or the object lacks inventory".  The slot enum
`InvenType` is not declared in the sources at hand and is the parameter `σ`. -/
def GetItemPtrSlot {σ : Type} (critter : GameObject σ) (slot : σ) : Option Ptr :=
  match critter.inventory with
  | none => none
  | some slots => slots slot

/-- Modelled from the spec: the host tile grid as far as the tile-radius query
observes it: the live objects in the host's scan order and, for every tile, the
tiles next to it.  Neither is part of the sources at hand. -/
structure TileGrid (σ : Type) where
  /-- The live objects, in the order the host enumerates them. -/
  objects : List (GameObject σ)
  /-- The tiles adjacent to a tile. -/
  neighbours : Int → List Int

/-- The tiles the scan has covered after `n` steps outward from the center: the
center tile itself before any step, and with every step the tiles next to the
ones covered so far. -/
def reached {σ : Type} (g : TileGrid σ) (sourceTile : Int) : Nat → List Int
  | 0 => [sourceTile]
  | n + 1 => reached g sourceTile n ++ (reached g sourceTile n).flatMap g.neighbours

/-- The tile `t` lies at distance exactly `d` from the center: the scan covers
it with step `d` and not before. -/
def firstReached {σ : Type} (g : TileGrid σ) (sourceTile : Int) (d : Nat) (t : Int) : Bool :=
  match d with
  | 0 => decide (t = sourceTile)
  | n + 1 => decide (t ∈ reached g sourceTile (n + 1)) && !decide (t ∈ reached g sourceTile n)

/-- The test applied to an object: right elevation and, unless the filter is
the default `-1`, right type. -/
def matchesFilter {σ : Type} (elev type : Int) (o : GameObject σ) : Bool :=
  decide (o.elevation = elev) && (decide (type = -1) || decide (o.type = type))

/-- The matching objects at distance exactly `d` from the source tile. -/
def objectsAtDistance {σ : Type} (g : TileGrid σ) (sourceTile elev type : Int) (d : Nat) :
    List (GameObject σ) :=
  g.objects.filter fun o => matchesFilter elev type o && firstReached g sourceTile d o.tile

/-- The matching objects at distances `0, 1, .., n - 1`, nearest first. -/
def scanOutward {σ : Type} (g : TileGrid σ) (sourceTile elev type : Int) :
    Nat → List (GameObject σ)
  | 0 => []
  | n + 1 => scanOutward g sourceTile elev type n ++ objectsAtDistance g sourceTile elev type n

/-- Modelled from the spec: the body of `GetObjectsTileRadius` is not in the
header ("Returns an array of objects within the specified radius from the source
tile").  It "produces the ordered sequence of matching objects found by scanning
the host's tile grid outward from the center"; the sequence is the value
returned here, and a negative radius finds nothing. -/
def GetObjectsTileRadius {σ : Type} (g : TileGrid σ) (sourceTile radius elev : Int)
    (type : Int) : List (GameObject σ) :=
  scanOutward g sourceTile elev type (radius + 1).toNat

/-- An example string table with two messages. -/
def exampleMessages : MessageList :=
  ⟨[⟨100, "Hello"⟩, ⟨101, "Goodbye"⟩]⟩

/-- An example set of loaded templates. -/
def exampleProtos : List (Proto Nat) :=
  [⟨41, 1⟩, ⟨16777217, 2⟩]

/-- An example object without inventory capability (slots are numbered). -/
def exampleScenery : GameObject Nat :=
  ⟨9, 5, 0, 2, none⟩

/-- An example grid: a line of tiles, each next to its two neighbours, holding
an object on tile `6`, one on tile `8` and one on tile `5`, all on elevation `0`. -/
def exampleGrid : TileGrid Nat :=
  ⟨[⟨1, 6, 0, 1, none⟩, ⟨2, 8, 0, 0, none⟩, ⟨3, 5, 0, 1, none⟩], fun t => [t - 1, t + 1]⟩

/-! ## Lemmas on list segments -/

theorem setNextRect_self {α : Type} (mem : Ptr → RectList α) (p v : Ptr) :
    setNextRect mem p v p = ⟨(mem p).rect, v⟩ := by
  simp [setNextRect]

theorem setNextRect_other {α : Type} (mem : Ptr → RectList α) (p v q : Ptr)
    (h : q ≠ p) : setNextRect mem p v q = mem q := by
  simp [setNextRect, Function.update_noteq h]

theorem sf_rect_free_eq {α : Type} (s : Host α) (rect : Ptr) (h : rect ≠ null) :
    sf_rect_free s rect = some ⟨rect, setNextRect s.mem rect s.rectList⟩ := by
  simp [sf_rect_free, h]

theorem IsSeg_cons {α : Type} (mem : Ptr → RectList α) (p x q : Ptr) (xs : List Ptr) :
    IsSeg mem p (x :: xs) q ↔ p ≠ null ∧ p = x ∧ IsSeg mem (mem x).nextRect xs q :=
  Iff.rfl

/-- Segments compose: a segment over `A ++ B` is a segment over `A` followed by
one over `B`. -/
theorem IsSeg_append {α : Type} (mem : Ptr → RectList α) (A B : List Ptr) (p q : Ptr) :
    IsSeg mem p (A ++ B) q ↔ ∃ m, IsSeg mem p A m ∧ IsSeg mem m B q := by
  induction A generalizing p with
  | nil => simp [IsSeg]
  | cons a A ih =>
    rw [List.cons_append, IsSeg_cons]
    constructor
    · rintro ⟨h1, h2, h3⟩
      obtain ⟨m, h4, h5⟩ := (ih _).mp h3
      exact ⟨m, ⟨h1, h2, h4⟩, h5⟩
    · rintro ⟨m, ⟨h1, h2, h3⟩, h4⟩
      exact ⟨h1, h2, (ih _).mpr ⟨m, h3, h4⟩⟩

/-- Frame rule: a store to the link of a node outside the segment leaves the
segment intact. -/
theorem IsSeg_setNextRect {α : Type} (mem : Ptr → RectList α) (r v : Ptr)
    (L : List Ptr) (p q : Ptr) (hr : r ∉ L) (h : IsSeg mem p L q) :
    IsSeg (setNextRect mem r v) p L q := by
  induction L generalizing p with
  | nil => exact h
  | cons x xs ih =>
    obtain ⟨h1, h2, h3⟩ := h
    have hx : x ≠ r := fun e => hr (by simp [e])
    have hxs : r ∉ xs := fun e => hr (List.mem_cons_of_mem _ e)
    refine ⟨h1, h2, ?_⟩
    rw [setNextRect_other mem r v x hx]
    exact ih _ hxs h3

/-- Segments are deterministic: a segment from `p` is an initial part of any
null-terminated walk from `p`. -/
theorem IsSeg_split_of_null {α : Type} (mem : Ptr → RectList α) (C : List Ptr)
    (p q : Ptr) (L : List Ptr) (hC : IsSeg mem p C q) (hL : IsSeg mem p L null) :
    ∃ L2, L = C ++ L2 ∧ IsSeg mem q L2 null := by
  induction C generalizing p L with
  | nil => exact ⟨L, rfl, by cases hC; exact hL⟩
  | cons x xs ih =>
    obtain ⟨h1, h2, h3⟩ := hC
    cases L with
    | nil => exact absurd hL h1
    | cons y ys =>
      obtain ⟨_, g2, g3⟩ := hL
      have hxy : x = y := h2.symm.trans g2
      subst hxy
      obtain ⟨L2, e, hq⟩ := ih _ ys h3 g3
      exact ⟨L2, by rw [e]; rfl, hq⟩

/-- A node that reaches itself starts no null-terminated walk. -/
theorem no_free_list_of_cycle {α : Type} (mem : Ptr → RectList α) (r : Ptr)
    (hc : Reaches mem r r) : ¬ ∃ L, IsSeg mem r L null := by
  obtain ⟨C, hne, hC⟩ := hc
  have key : ∀ n : Nat, ∀ L : List Ptr, L.length ≤ n → ¬ IsSeg mem r L null := by
    intro n
    induction n with
    | zero =>
      intro L hlen hL
      obtain ⟨L2, e, _⟩ := IsSeg_split_of_null mem C r r L hC hL
      have : C.length = 0 := by
        have := congrArg List.length e
        simp at this
        omega
      exact hne (List.length_eq_zero.mp this)
    | succ n ih =>
      intro L hlen hL
      obtain ⟨L2, e, h2⟩ := IsSeg_split_of_null mem C r r L hC hL
      have hpos : 0 < C.length := List.length_pos.mpr hne
      have hl : L2.length ≤ n := by
        have := congrArg List.length e
        simp at this
        omega
      exact ih L2 hl h2
  rintro ⟨L, hL⟩
  exact key L.length L le_rfl hL

/-- A null-terminated walk never visits a node twice. -/
theorem IsSeg_null_nodup {α : Type} (mem : Ptr → RectList α) (L : List Ptr) (p : Ptr)
    (h : IsSeg mem p L null) : L.Nodup := by
  induction L generalizing p with
  | nil => exact List.nodup_nil
  | cons x xs ih =>
    obtain ⟨h1, h2, h3⟩ := h
    refine List.nodup_cons.mpr ⟨?_, ih _ h3⟩
    intro hx
    obtain ⟨pre, post, e⟩ := List.append_of_mem hx
    rw [e] at h3
    obtain ⟨m, hm1, hm2⟩ := (IsSeg_append mem pre (x :: post) _ null).mp h3
    have hmx : m = x := hm2.2.1
    subst hmx
    have hcyc : Reaches mem m m := ⟨m :: pre, by simp, hm2.1, rfl, hm1⟩
    exact no_free_list_of_cycle mem m hcyc ⟨m :: (pre ++ m :: post), hm2.1, rfl, h3⟩

/-- The node sequence of a null-terminated free list is unique. -/
theorem IsSeg_null_unique {α : Type} (mem : Ptr → RectList α) (L1 L2 : List Ptr) (p : Ptr)
    (h1 : IsSeg mem p L1 null) (h2 : IsSeg mem p L2 null) : L1 = L2 := by
  obtain ⟨R, e, hR⟩ := IsSeg_split_of_null mem L1 p null L2 h1 h2
  cases R with
  | nil => simpa using e.symm
  | cons y ys => exact absurd rfl hR.1

/-- Every node of a segment is a non-null pointer. -/
theorem IsSeg_ne_null {α : Type} (mem : Ptr → RectList α) (L : List Ptr) (p q x : Ptr)
    (h : IsSeg mem p L q) (hx : x ∈ L) : x ≠ null := by
  induction L generalizing p with
  | nil => simp at hx
  | cons y ys ih =>
    obtain ⟨h1, h2, h3⟩ := h
    rcases List.mem_cons.mp hx with e | e
    · rw [e, ← h2]; exact h1
    · exact ih _ h3 e

/-! ## Lemmas on the modelled wrappers -/

theorem message_search_found (nodes : List MessageNode) (messageId : Int)
    (h : ∃ n ∈ nodes, n.number = messageId) :
    ∃ n, message_search nodes messageId = some n ∧ n ∈ nodes ∧ n.number = messageId := by
  induction nodes with
  | nil => simp at h
  | cons a rest ih =>
    by_cases ha : a.number = messageId
    · exact ⟨a, by simp [message_search, ha], List.mem_cons_self _ _, ha⟩
    · obtain ⟨n, hn, hid⟩ := h
      rcases List.mem_cons.mp hn with e | e
      · exact absurd (e ▸ hid) ha
      · obtain ⟨m, h1, h2, h3⟩ := ih ⟨n, e, hid⟩
        exact ⟨m, by simp [message_search, ha, h1], List.mem_cons_of_mem _ h2, h3⟩

theorem message_search_missing (nodes : List MessageNode) (messageId : Int)
    (h : ¬ ∃ n ∈ nodes, n.number = messageId) : message_search nodes messageId = none := by
  induction nodes with
  | nil => rfl
  | cons a rest ih =>
    have ha : a.number ≠ messageId := fun e => h ⟨a, List.mem_cons_self _ _, e⟩
    have hr : ¬ ∃ n ∈ rest, n.number = messageId :=
      fun ⟨n, hn, e⟩ => h ⟨n, List.mem_cons_of_mem _ hn, e⟩
    simp [message_search, ha, ih hr]

theorem copyTags_touched (src dst : Nat → Int) (n : Nat) :
    (copyTags src dst n).2 = List.range n := by
  induction n with
  | zero => rfl
  | succ n ih => simp [copyTags, ih, List.range_succ]

theorem copyTags_below (src dst : Nat → Int) (n i : Nat) (h : i < n) :
    (copyTags src dst n).1 i = src i := by
  induction n with
  | zero => omega
  | succ n ih =>
    by_cases e : i = n
    · simp [copyTags, e]
    · have hi : i < n := by omega
      simp [copyTags, Function.update_noteq e, ih hi]

theorem copyTags_beyond (src dst : Nat → Int) (n i : Nat) (h : n ≤ i) :
    (copyTags src dst n).1 i = dst i := by
  induction n with
  | zero => rfl
  | succ n ih =>
    have e : i ≠ n := by omega
    have hi : n ≤ i := by omega
    simp [copyTags, Function.update_noteq e, ih hi]

theorem clampTagCount_of_gt (tagCount : Nat) (num : Int) (h : num > (tagCount : Int)) :
    clampTagCount tagCount num = tagCount := by
  simp [clampTagCount, h]

theorem reached_mono {σ : Type} (g : TileGrid σ) (sourceTile : Int) (n m : Nat) (t : Int)
    (hnm : n ≤ m) (h : t ∈ reached g sourceTile n) : t ∈ reached g sourceTile m := by
  induction m with
  | zero =>
    have e : n = 0 := by omega
    rw [e] at h
    exact h
  | succ m ih =>
    by_cases e : n = m + 1
    · rw [e] at h
      exact h
    · exact List.mem_append_left _ (ih (by omega))

theorem firstReached_succ {σ : Type} (g : TileGrid σ) (sourceTile : Int) (n : Nat) (t : Int) :
    firstReached g sourceTile (n + 1) t = true ↔
      t ∈ reached g sourceTile (n + 1) ∧ t ∉ reached g sourceTile n := by
  simp [firstReached]

theorem mem_scanOutward {σ : Type} (g : TileGrid σ) (sourceTile elev type : Int) (n : Nat)
    (o : GameObject σ) :
    o ∈ scanOutward g sourceTile elev type (n + 1) ↔
      o ∈ g.objects ∧ matchesFilter elev type o = true ∧ o.tile ∈ reached g sourceTile n := by
  induction n with
  | zero => simp [scanOutward, objectsAtDistance, firstReached, reached]
  | succ n ih =>
    rw [scanOutward, List.mem_append, ih, objectsAtDistance, List.mem_filter,
      Bool.and_eq_true, firstReached_succ]
    constructor
    · rintro (⟨h1, h2, h3⟩ | ⟨h1, h2, h3, _⟩)
      · exact ⟨h1, h2, reached_mono g sourceTile n (n + 1) o.tile (by omega) h3⟩
      · exact ⟨h1, h2, h3⟩
    · rintro ⟨h1, h2, h3⟩
      by_cases e : o.tile ∈ reached g sourceTile n
      · exact Or.inl ⟨h1, h2, e⟩
      · exact Or.inr ⟨h1, h2, h3, e⟩

/-! ## Theorems -/

/-- C1: for every pool state and every non-null node `rect`, `sf_rect_free`
returns a state whose free-list head is `rect` and in which `rect->nextRect`
is the head the pool had immediately before the call (also when that old head
was null, i.e. the pool was empty). -/
theorem sf_rect_free_pushes_head {α : Type} (s : Host α) (rect : Ptr)
    (hrect : rect ≠ null) :
    ∃ s1, sf_rect_free s rect = some s1 ∧ s1.rectList = rect ∧
      (s1.mem rect).nextRect = s.rectList := by
  refine ⟨⟨rect, setNextRect s.mem rect s.rectList⟩, ?_, rfl, ?_⟩
  · simp [sf_rect_free, hrect]
  · simp [setNextRect]

/-- Witness for C1 on the example pool, releasing the outside node `7`. -/
theorem sf_rect_free_pushes_head_witness :
    (7 : Ptr) ≠ null ∧ ∃ s1, sf_rect_free examplePool 7 = some s1 ∧ s1.rectList = 7 ∧
      (s1.mem 7).nextRect = examplePool.rectList :=
  ⟨by decide, sf_rect_free_pushes_head examplePool 7 (by decide)⟩

/-- C2: for every pool state and every non-null node `rect`, releasing `rect`
and then immediately allocating from the pool (head node taken, head advanced
to its `nextRect`) hands out exactly `rect` and leaves the free-list head equal
to what it was before the release. -/
theorem sf_rect_free_then_malloc {α : Type} (s : Host α) (rect : Ptr)
    (hrect : rect ≠ null) :
    ∃ s1 s2, sf_rect_free s rect = some s1 ∧ rect_malloc s1 = some (rect, s2) ∧
      s2.rectList = s.rectList := by
  refine ⟨⟨rect, setNextRect s.mem rect s.rectList⟩,
    ⟨s.rectList, setNextRect s.mem rect s.rectList⟩, sf_rect_free_eq s rect hrect, ?_, rfl⟩
  simp [rect_malloc, hrect, setNextRect_self]

/-- Witness for C2 on the example pool, releasing the outside node `7`. -/
theorem sf_rect_free_then_malloc_witness :
    (7 : Ptr) ≠ null ∧ ∃ s1 s2, sf_rect_free examplePool 7 = some s1 ∧
      rect_malloc s1 = some (7, s2) ∧ s2.rectList = examplePool.rectList :=
  ⟨by decide, sf_rect_free_then_malloc examplePool 7 (by decide)⟩

/-- C3: double release corrupts the free list.  For every null-terminated
(hence acyclic) free list with node sequence `L` and every node `rect` in `L`,
after `sf_rect_free s rect` the node `rect` is reachable from itself along
`nextRect` links, so no null-terminated walk starts at the head any more and
the list is not well-formed; the release of a pooled node is not a no-op; and
releasing `rect` twice in a row from any state leaves `rect->nextRect == rect`,
the second release changing the state again unless `rect` was the head from
the start. -/
theorem sf_rect_free_double_release {α : Type} (s : Host α) (L : List Ptr) (rect : Ptr)
    (hwf : IsFreeList s L) (hmem : rect ∈ L) :
    ∃ s1, sf_rect_free s rect = some s1 ∧
      Reaches s1.mem rect rect ∧
      (¬ ∃ L1, IsFreeList s1 L1) ∧
      ¬ WellFormed s1 ∧
      s1 ≠ s ∧
      (∀ t : Host α, ∃ t1 t2, sf_rect_free t rect = some t1 ∧
        sf_rect_free t1 rect = some t2 ∧ (t2.mem rect).nextRect = rect ∧
        (t.rectList ≠ rect → t2 ≠ t1)) := by
  have hne : rect ≠ null := IsSeg_ne_null s.mem L s.rectList null rect hwf hmem
  have hnd : L.Nodup := IsSeg_null_nodup s.mem L s.rectList hwf
  obtain ⟨pre, post, e⟩ := List.append_of_mem hmem
  subst e
  have hpre : rect ∉ pre := by
    intro hin
    have := (List.nodup_append.mp hnd).2.2
    exact this hin (List.mem_cons_self _ _)
  obtain ⟨m, hm1, hm2⟩ := (IsSeg_append s.mem pre (rect :: post) s.rectList null).mp hwf
  have hmr : m = rect := hm2.2.1
  subst hmr
  have hcyc : Reaches (setNextRect s.mem m s.rectList) m m := by
    refine ⟨m :: pre, by simp, hne, rfl, ?_⟩
    rw [setNextRect_self]
    exact IsSeg_setNextRect s.mem m s.rectList pre s.rectList m hpre hm1
  have hno : ¬ ∃ L1, IsSeg (setNextRect s.mem m s.rectList) m L1 null :=
    no_free_list_of_cycle _ m hcyc
  refine ⟨⟨m, setNextRect s.mem m s.rectList⟩, sf_rect_free_eq s m hne, hcyc, hno, ?_, ?_, ?_⟩
  · rintro ⟨L1, h1, _⟩
    exact hno ⟨L1, h1⟩
  · intro heq
    apply hno
    refine ⟨pre ++ m :: post, ?_⟩
    have : IsFreeList (⟨m, setNextRect s.mem m s.rectList⟩ : Host α) (pre ++ m :: post) := by
      rw [heq]; exact hwf
    exact this
  · intro t
    refine ⟨⟨m, setNextRect t.mem m t.rectList⟩,
      ⟨m, setNextRect (setNextRect t.mem m t.rectList) m m⟩,
      sf_rect_free_eq t m hne, sf_rect_free_eq _ m hne, ?_, ?_⟩
    · simp [setNextRect_self]
    · intro hhead heq
      have hlink := congrArg (fun u : Host α => (u.mem m).nextRect) heq
      simp only [setNextRect_self] at hlink
      exact hhead hlink.symm

/-- Witness for C3 on the example pool `1 → 2 → 3`, releasing the pooled node `2`. -/
theorem sf_rect_free_double_release_witness :
    IsFreeList examplePool [1, 2, 3] ∧ (2 : Ptr) ∈ [1, 2, 3] ∧
    ∃ s1, sf_rect_free examplePool 2 = some s1 ∧
      Reaches s1.mem 2 2 ∧
      (¬ ∃ L1, IsFreeList s1 L1) ∧
      ¬ WellFormed s1 ∧
      s1 ≠ examplePool ∧
      (∀ t : Host Nat, ∃ t1 t2, sf_rect_free t 2 = some t1 ∧
        sf_rect_free t1 2 = some t2 ∧ (t2.mem 2).nextRect = 2 ∧
        (t.rectList ≠ 2 → t2 ≠ t1)) :=
  ⟨by decide, by decide,
    sf_rect_free_double_release examplePool [1, 2, 3] 2 (by decide) (by decide)⟩

/-- C4: `sf_rect_free` does no other bookkeeping.  The state it returns differs
from the old one at most in the free-list head and in the `nextRect` field of
`rect`: the rectangle data stored in `rect` and the whole record of every node
other than `rect` (its `nextRect` included) are as before the call. -/
theorem sf_rect_free_frame {α : Type} (s : Host α) (rect : Ptr) (hrect : rect ≠ null) :
    ∃ s1, sf_rect_free s rect = some s1 ∧
      (s1.mem rect).rect = (s.mem rect).rect ∧
      ∀ p, p ≠ rect → s1.mem p = s.mem p := by
  refine ⟨⟨rect, setNextRect s.mem rect s.rectList⟩, sf_rect_free_eq s rect hrect, ?_, ?_⟩
  · simp [setNextRect_self]
  · intro p hp
    exact setNextRect_other s.mem rect s.rectList p hp

/-- Witness for C4 on the example pool, releasing the outside node `7`. -/
theorem sf_rect_free_frame_witness :
    (7 : Ptr) ≠ null ∧ ∃ s1, sf_rect_free examplePool 7 = some s1 ∧
      (s1.mem 7).rect = (examplePool.mem 7).rect ∧
      ∀ p, p ≠ 7 → s1.mem p = examplePool.mem p :=
  ⟨by decide, sf_rect_free_frame examplePool 7 (by decide)⟩

/-- C5: for every message table and message id, when the id is found both
lookups return the same string, the text of a table record with that id; when
the id is not found `GetMessageStr` returns exactly the placeholder "Error"
(a string, never no value) and `MessageSearch` returns no value. -/
theorem GetMessageStr_MessageSearch (fileAddr : MessageList) (messageId : Int) :
    ((∃ n ∈ fileAddr.nodes, n.number = messageId) →
      ∃ n ∈ fileAddr.nodes, n.number = messageId ∧
        MessageSearch fileAddr messageId = some n.message ∧
        GetMessageStr fileAddr messageId = n.message) ∧
    ((¬ ∃ n ∈ fileAddr.nodes, n.number = messageId) →
      GetMessageStr fileAddr messageId = "Error" ∧ MessageSearch fileAddr messageId = none) := by
  constructor
  · intro h
    obtain ⟨n, h1, h2, h3⟩ := message_search_found fileAddr.nodes messageId h
    exact ⟨n, h2, h3, by simp [MessageSearch, h1], by simp [GetMessageStr, h1]⟩
  · intro h
    have h1 := message_search_missing fileAddr.nodes messageId h
    exact ⟨by simp [GetMessageStr, h1], by simp [MessageSearch, h1]⟩

/-- Witness for C5 on the example table: id `101` is found, id `7` is not. -/
theorem GetMessageStr_MessageSearch_witness :
    (∃ n ∈ exampleMessages.nodes, n.number = 101 ∧
      MessageSearch exampleMessages 101 = some n.message ∧
      GetMessageStr exampleMessages 101 = n.message) ∧
    (GetMessageStr exampleMessages 7 = "Error" ∧ MessageSearch exampleMessages 7 = none) ∧
    GetMessageStr exampleMessages 101 = "Goodbye" :=
  ⟨(GetMessageStr_MessageSearch exampleMessages 101).1
      ⟨⟨101, "Goodbye"⟩, by simp [exampleMessages], rfl⟩,
    (GetMessageStr_MessageSearch exampleMessages 7).2 (by simp [exampleMessages]),
    by decide⟩

/-- C6: for every requested count `num` greater than the valid skill-tag count,
`SkillGetTags` and `SkillSetTags` touch exactly the entries `0 .. tagCount - 1`:
the first `tagCount` entries of the destination are copied from the source and
every entry from offset `tagCount` on is left as it was. -/
theorem SkillTags_clamped (tagCount : Nat) (tag_skill buf : Nat → Int) (num : Int)
    (h : num > (tagCount : Int)) :
    ((SkillGetTags tagCount tag_skill buf num).2 = List.range tagCount ∧
      (∀ i, i < tagCount → (SkillGetTags tagCount tag_skill buf num).1 i = tag_skill i) ∧
      (∀ i, tagCount ≤ i → (SkillGetTags tagCount tag_skill buf num).1 i = buf i)) ∧
    ((SkillSetTags tagCount tag_skill buf num).2 = List.range tagCount ∧
      (∀ i, i < tagCount → (SkillSetTags tagCount tag_skill buf num).1 i = buf i) ∧
      (∀ i, tagCount ≤ i → (SkillSetTags tagCount tag_skill buf num).1 i = tag_skill i)) := by
  have hc := clampTagCount_of_gt tagCount num h
  simp only [SkillGetTags, SkillSetTags, hc]
  exact ⟨⟨copyTags_touched _ _ _, fun i hi => copyTags_below _ _ _ i hi,
      fun i hi => copyTags_beyond _ _ _ i hi⟩,
    ⟨copyTags_touched _ _ _, fun i hi => copyTags_below _ _ _ i hi,
      fun i hi => copyTags_beyond _ _ _ i hi⟩⟩

/-- Witness for C6: four valid tags, nine requested. -/
theorem SkillTags_clamped_witness :
    (9 : Int) > ((4 : Nat) : Int) ∧
    ((SkillGetTags 4 (fun i => i + 10) (fun _ => 0) 9).2 = List.range 4 ∧
      (∀ i, i < 4 → (SkillGetTags 4 (fun i => i + 10) (fun _ => 0) 9).1 i = (i : Int) + 10) ∧
      (∀ i, 4 ≤ i → (SkillGetTags 4 (fun i => i + 10) (fun _ => 0) 9).1 i = 0)) ∧
    ((SkillSetTags 4 (fun i => i + 10) (fun _ => 0) 9).2 = List.range 4 ∧
      (∀ i, i < 4 → (SkillSetTags 4 (fun i => i + 10) (fun _ => 0) 9).1 i = 0) ∧
      (∀ i, 4 ≤ i → (SkillSetTags 4 (fun i => i + 10) (fun _ => 0) 9).1 i = (i : Int) + 10)) :=
  ⟨by decide, SkillTags_clamped 4 (fun i => i + 10) (fun _ => 0) 9 (by decide)⟩

/-- C7: for every PID, `GetProto` returns a loaded template whose identifier
field equals the PID when the PID is loaded, and no value when it is not. -/
theorem GetProto_loaded_or_null {β : Type} (loaded : List (Proto β)) (pid : Int) :
    ((∃ p ∈ loaded, p.pid = pid) →
      ∃ p, GetProto loaded pid = some p ∧ p ∈ loaded ∧ p.pid = pid) ∧
    ((¬ ∃ p ∈ loaded, p.pid = pid) → GetProto loaded pid = none) := by
  induction loaded with
  | nil => exact ⟨fun h => by simp at h, fun _ => rfl⟩
  | cons a rest ih =>
    by_cases ha : a.pid = pid
    · exact ⟨fun _ => ⟨a, by simp [GetProto, ha], List.mem_cons_self _ _, ha⟩,
        fun h => absurd ⟨a, List.mem_cons_self _ _, ha⟩ h⟩
    · constructor
      · rintro ⟨p, hp, e⟩
        rcases List.mem_cons.mp hp with e1 | e1
        · exact absurd (e1 ▸ e) ha
        · obtain ⟨q, h1, h2, h3⟩ := ih.1 ⟨p, e1, e⟩
          exact ⟨q, by simp [GetProto, ha, h1], List.mem_cons_of_mem _ h2, h3⟩
      · intro h
        have hr : ¬ ∃ p ∈ rest, p.pid = pid :=
          fun ⟨p, hp, e⟩ => h ⟨p, List.mem_cons_of_mem _ hp, e⟩
        simp [GetProto, ha, ih.2 hr]

/-- Witness for C7 on the example templates: PID `16777217` is loaded, `5` is not. -/
theorem GetProto_loaded_or_null_witness :
    (∃ p, GetProto exampleProtos 16777217 = some p ∧ p ∈ exampleProtos ∧ p.pid = 16777217) ∧
    GetProto exampleProtos 5 = none :=
  ⟨(GetProto_loaded_or_null exampleProtos 16777217).1
      ⟨⟨16777217, 2⟩, by simp [exampleProtos], rfl⟩,
    (GetProto_loaded_or_null exampleProtos 5).2 (by simp [exampleProtos])⟩

/-- C8: for every object without inventory capability and every value of the
slot enum, `GetItemPtrSlot` returns no value. -/
theorem GetItemPtrSlot_no_inventory {σ : Type} (critter : GameObject σ)
    (h : critter.inventory = none) (slot : σ) : GetItemPtrSlot critter slot = none := by
  simp [GetItemPtrSlot, h]

/-- Witness for C8 on the example object, slot `2`. -/
theorem GetItemPtrSlot_no_inventory_witness :
    exampleScenery.inventory = none ∧ GetItemPtrSlot exampleScenery 2 = none :=
  ⟨rfl, GetItemPtrSlot_no_inventory exampleScenery rfl 2⟩

/-- C9: for every source tile, elevation and type filter on a fixed grid, the
query with radius `0` returns only objects occupying the source tile, and for
radii `r1 ≤ r2` every object returned for `r1` is also returned for `r2`. -/
theorem GetObjectsTileRadius_radius {σ : Type} (g : TileGrid σ)
    (sourceTile elev type : Int) :
    (∀ o ∈ GetObjectsTileRadius g sourceTile 0 elev type, o.tile = sourceTile) ∧
    (∀ r1 r2 : Int, r1 ≤ r2 →
      ∀ o ∈ GetObjectsTileRadius g sourceTile r1 elev type,
        o ∈ GetObjectsTileRadius g sourceTile r2 elev type) := by
  constructor
  · intro o ho
    have h := (mem_scanOutward g sourceTile elev type 0 o).mp ho
    exact List.mem_singleton.mp h.2.2
  · intro r1 r2 h12 o ho
    unfold GetObjectsTileRadius at ho ⊢
    obtain ⟨k1, e1⟩ : ∃ k, (r1 + 1).toNat = k + 1 := by
      cases hk : (r1 + 1).toNat with
      | zero => rw [hk] at ho; simp [scanOutward] at ho
      | succ k => exact ⟨k, rfl⟩
    obtain ⟨k2, e2⟩ : ∃ k, (r2 + 1).toNat = k + 1 := ⟨(r2 + 1).toNat - 1, by omega⟩
    rw [e1] at ho
    rw [e2]
    have h := (mem_scanOutward g sourceTile elev type k1 o).mp ho
    exact (mem_scanOutward g sourceTile elev type k2 o).mpr
      ⟨h.1, h.2.1, reached_mono g sourceTile k1 k2 o.tile (by omega) h.2.2⟩

/-- Witness for C9 on the example grid, source tile `5`: radius `0` finds the
object on tile `5`, radius `1` finds it and the object on tile `6`, radius `3`
finds all three. -/
theorem GetObjectsTileRadius_radius_witness :
    (∀ o ∈ GetObjectsTileRadius exampleGrid 5 0 0 (-1), o.tile = 5) ∧
    ((0 : Int) ≤ 1 ∧ ∀ o ∈ GetObjectsTileRadius exampleGrid 5 0 0 (-1),
      o ∈ GetObjectsTileRadius exampleGrid 5 1 0 (-1)) ∧
    (GetObjectsTileRadius exampleGrid 5 0 0 (-1)).map GameObject.id = [3] ∧
    (GetObjectsTileRadius exampleGrid 5 1 0 (-1)).map GameObject.id = [3, 1] ∧
    (GetObjectsTileRadius exampleGrid 5 3 0 (-1)).map GameObject.id = [3, 1, 2] :=
  ⟨(GetObjectsTileRadius_radius exampleGrid 5 0 (-1)).1,
    ⟨by decide, (GetObjectsTileRadius_radius exampleGrid 5 0 (-1)).2 0 1 (by decide)⟩,
    by decide, by decide, by decide⟩

/-- C10: `sf_rect_free` preserves well-formedness for fresh nodes.  If the free
list is null-terminated with node sequence `L` and `rect` is a non-null node
that is not in `L`, then after the release the free list is again
null-terminated and acyclic, and its node sequence from the head is exactly
`rect :: L`: one node longer, with every pooled node still in it. -/
theorem sf_rect_free_preserves_free_list {α : Type} (s : Host α) (L : List Ptr)
    (rect : Ptr) (hwf : IsFreeList s L) (hrect : rect ≠ null) (hfresh : rect ∉ L) :
    ∃ s1, sf_rect_free s rect = some s1 ∧
      IsFreeList s1 (rect :: L) ∧ (rect :: L).Nodup ∧ WellFormed s1 ∧
      (∀ L1, IsFreeList s1 L1 → L1 = rect :: L) ∧
      (rect :: L).length = L.length + 1 ∧ (∀ p, p ∈ L → p ∈ rect :: L) := by
  have hnew : IsFreeList (⟨rect, setNextRect s.mem rect s.rectList⟩ : Host α) (rect :: L) := by
    refine ⟨hrect, rfl, ?_⟩
    show IsSeg (setNextRect s.mem rect s.rectList)
      ((setNextRect s.mem rect s.rectList) rect).nextRect L null
    rw [setNextRect_self]
    exact IsSeg_setNextRect s.mem rect s.rectList L s.rectList null hfresh hwf
  have hnd : (rect :: L).Nodup := IsSeg_null_nodup _ _ _ hnew
  refine ⟨⟨rect, setNextRect s.mem rect s.rectList⟩, sf_rect_free_eq s rect hrect,
    hnew, hnd, ⟨rect :: L, hnew, hnd⟩, ?_, rfl, ?_⟩
  · intro L1 h1
    exact IsSeg_null_unique _ L1 (rect :: L) rect h1 hnew
  · intro p hp
    exact List.mem_cons_of_mem _ hp

/-- Witness for C10 on the example pool `1 → 2 → 3`, releasing the fresh node `7`. -/
theorem sf_rect_free_preserves_free_list_witness :
    IsFreeList examplePool [1, 2, 3] ∧ (7 : Ptr) ≠ null ∧ (7 : Ptr) ∉ [1, 2, 3] ∧
    ∃ s1, sf_rect_free examplePool 7 = some s1 ∧
      IsFreeList s1 [7, 1, 2, 3] ∧ [7, 1, 2, 3].Nodup ∧ WellFormed s1 ∧
      (∀ L1, IsFreeList s1 L1 → L1 = [7, 1, 2, 3]) ∧
      [7, 1, 2, 3].length = [1, 2, 3].length + 1 ∧ (∀ p, p ∈ [1, 2, 3] → p ∈ [7, 1, 2, 3]) :=
  ⟨by decide, by decide, by decide,
    sf_rect_free_preserves_free_list examplePool [1, 2, 3] 7 (by decide) (by decide) (by decide)⟩

end fo
